import Mathlib

/-!
Shallow embedding of the NeuroDrive track-geometry and sensing core.

Scalars: the Rust source computes over `f32`.  Every `f32` value is a rational
number, so the machine arithmetic is modelled exactly by a linear ordered field
`K` (instantiated at `ℚ` for computations and at `ℝ` where genuine square roots,
trigonometry or `atan2` enter).  The platform `f32` `cos`/`sin` functions are modelled
as explicit function parameters `cosF sinF : K → K` where only their
determinism matters.

Translated sources:
* `src/game/physics.rs`   — `CarKinematicState`, `CarDynamicsParams`,
  `step_car_dynamics`.
* `src/maps/parts/mod.rs` — `TilePart` and its connectivity tables.
* `src/maps/grid.rs`      — `TrackGrid`, `world_to_cell`, `cell_center`,
  `is_road_at`, `corner_arc_params`, `find_spawn`.
* `src/maps/centerline.rs`— `GridDir`, `CenterlineBuildError`,
  `TrackCenterline` (`build_closed_loop`, `project`), `traverse_cells`,
  `choose_next_dir`, `step_cell`, `build_polyline_points`, `compute_lengths`.
* `src/agent/observation.rs` — `wrap_angle`, `signed_angle_between`,
  `raycast_to_road_boundary`, `refine_boundary_distance`.
-/

/-- Two-component vector, the model of the Bevy `Vec2` over an exact field. -/
structure Vec2 (K : Type) where
  x : K
  y : K
  deriving DecidableEq

namespace Vec2

variable {K : Type} [LinearOrderedField K]

instance : Zero (Vec2 K) := ⟨⟨0, 0⟩⟩

instance : Add (Vec2 K) := ⟨fun a b => ⟨a.x + b.x, a.y + b.y⟩⟩

instance : Sub (Vec2 K) := ⟨fun a b => ⟨a.x - b.x, a.y - b.y⟩⟩

instance : SMul K (Vec2 K) := ⟨fun c v => ⟨c * v.x, c * v.y⟩⟩

/-- Dot product, `Vec2::dot`. -/
def dot (a b : Vec2 K) : K := a.x * b.x + a.y * b.y

/-- Squared length, `Vec2::length_squared`. -/
def length_squared (v : Vec2 K) : K := v.x * v.x + v.y * v.y

/-- Squared distance between two points; `a.distance(b)` in the source is
`Real.sqrt` of this (the square root only ever appears under monotone
comparisons or in genuinely real-valued outputs). -/
def dist2 (a b : Vec2 K) : K := (a.x - b.x) * (a.x - b.x) + (a.y - b.y) * (a.y - b.y)

end Vec2

/-- Clamp to an interval; models `f32::clamp` (`x.clamp(lo, hi)`). -/
def clampK {K : Type} [LinearOrderedField K] (x lo hi : K) : K :=
  if x < lo then lo else if hi < x then hi else x

/-! ## Kinematics stepper (`src/game/physics.rs`) -/

/-- Minimal deterministic car state used by the pure replay stepper. -/
structure CarKinematicState (K : Type) where
  position : Vec2 K
  velocity : Vec2 K
  heading : K
  deriving DecidableEq

/-- Immutable car dynamics parameters consumed by the pure stepper. -/
structure CarDynamicsParams (K : Type) where
  rotation_speed : K
  thrust : K
  drag : K
  deriving DecidableEq

/-- Model of `step_car_dynamics`.  `cosF`/`sinF` stand for the platform
(deterministic) `f32` cosine and sine. -/
def step_car_dynamics {K : Type} [LinearOrderedField K] (cosF sinF : K → K)
    (state : CarKinematicState K) (steering throttle dt : K)
    (params : CarDynamicsParams K) : CarKinematicState K :=
  let heading1 := state.heading + -(clampK steering (-1) 1) * params.rotation_speed * dt
  let velocity1 :=
    if 0 < throttle then
      let forward : Vec2 K := ⟨cosF heading1, sinF heading1⟩
      state.velocity + dt • ((params.thrust * clampK throttle 0 1) • forward)
    else
      state.velocity
  let velocity2 := params.drag • velocity1
  { position := state.position + dt • velocity2
    velocity := velocity2
    heading := heading1 }

/-- Running the stepper over a finite action/dt schedule, collecting the full
trajectory (state after each tick, most recent last). -/
def run_car_dynamics {K : Type} [LinearOrderedField K] (cosF sinF : K → K)
    (params : CarDynamicsParams K) :
    CarKinematicState K → List (K × K × K) → List (CarKinematicState K)
  | _, [] => []
  | state, (steering, throttle, dt) :: rest =>
      let next := step_car_dynamics cosF sinF state steering throttle dt params
      next :: run_car_dynamics cosF sinF params next rest

/-! ## Tile model (`src/maps/parts/mod.rs`) -/

/-- Individual tile types that compose a grid-based race track. -/
inductive TilePart where
  | empty
  | straightH
  | straightV
  | cornerNW
  | cornerNE
  | cornerSW
  | cornerSE
  | tJunctionN
  | tJunctionS
  | tJunctionE
  | tJunctionW
  | crossroads
  | spawnPoint
  deriving DecidableEq

namespace TilePart

/-- Returns `true` if this tile is part of the driveable road surface. -/
def is_road (t : TilePart) : Bool := t ≠ empty

/-- Open edges, in `(north, south, east, west)` order. -/
def open_edges (t : TilePart) : Bool × Bool × Bool × Bool :=
  match t with
  | empty      => (false, false, false, false)
  | straightH  => (false, false, true,  true)
  | spawnPoint => (false, false, true,  true)
  | straightV  => (true,  true,  false, false)
  | cornerNW   => (false, true,  true,  false)
  | cornerNE   => (false, true,  false, true)
  | cornerSW   => (true,  false, true,  false)
  | cornerSE   => (true,  false, false, true)
  | tJunctionN => (false, true,  true,  true)
  | tJunctionS => (true,  false, true,  true)
  | tJunctionE => (true,  true,  false, true)
  | tJunctionW => (true,  true,  true,  false)
  | crossroads => (true,  true,  true,  true)

/-- Returns `true` if this tile type uses a curved arc wall. -/
def is_corner (t : TilePart) : Bool :=
  match t with
  | cornerNW | cornerNE | cornerSW | cornerSE => true
  | _ => false

end TilePart

/-! ## Grid directions (`src/maps/centerline.rs`) -/

/-- Cardinal directions in grid space. -/
inductive GridDir where
  | north
  | south
  | east
  | west
  deriving DecidableEq

namespace GridDir

/-- Returns the opposite direction. -/
def opposite : GridDir → GridDir
  | north => south
  | south => north
  | east => west
  | west => east

/-- Returns the `(d_row, d_col)` offset for this direction. -/
def delta : GridDir → Int × Int
  | north => (-1, 0)
  | south => (1, 0)
  | east => (0, 1)
  | west => (0, -1)

end GridDir

/-! ## TrackGrid (`src/maps/grid.rs`) -/

/-- Thickness in pixels of rendered wall sprites (`WALL_THICKNESS = 5.0`). -/
def wallThickness {K : Type} [LinearOrderedField K] : K := 5

/-- A grid-based track definition.  Tiles are stored row-major; row 0 is the
topmost row.  `origin` is the world-space top-left corner of cell `[0][0]`. -/
structure TrackGrid (K : Type) where
  tiles : List (List TilePart)
  tile_size : K
  origin : Vec2 K

namespace TrackGrid

variable {K : Type} [LinearOrderedField K]

/-- Number of rows in the grid. -/
def rows (g : TrackGrid K) : Nat := g.tiles.length

/-- Number of columns (derived from the first row; 0 if empty). -/
def cols (g : TrackGrid K) : Nat := (g.tiles.headD []).length

/-- Returns the `TilePart` at `(row, col)`, or `Empty` when out of bounds. -/
def tile_at (g : TrackGrid K) (row col : Nat) : TilePart :=
  (g.tiles.getD row []).getD col .empty

/-- Returns the world-space centre of tile `(row, col)`. -/
def cell_center (g : TrackGrid K) (row col : Nat) : Vec2 K :=
  ⟨g.origin.x + (col : K) * g.tile_size + g.tile_size * (1 / 2),
   g.origin.y - (row : K) * g.tile_size - g.tile_size * (1 / 2)⟩

/-- Converts a world-space position to `(row, col)`; `None` outside the grid.
The Rust `as usize` cast of a non-negative `f32` is truncation toward zero,
i.e. `Nat.floor` (both saturate at zero below zero, but the code has already
returned `None` for negative inputs). -/
def world_to_cell [FloorRing K] (g : TrackGrid K) (world : Vec2 K) :
    Option (Nat × Nat) :=
  let rel_x := world.x - g.origin.x
  let rel_y := g.origin.y - world.y
  if rel_x < 0 ∨ rel_y < 0 then none
  else
    let col := ⌊rel_x / g.tile_size⌋₊
    let row := ⌊rel_y / g.tile_size⌋₊
    if g.rows ≤ row ∨ g.cols ≤ col then none
    else some (row, col)

end TrackGrid

/-- Returns the arc parameters for a corner tile: `(arc_center, start_deg,
end_deg)`.  The Rust function panics (`unreachable!`) on non-corner tiles and
is only ever called on corners; the model returns a junk value there. -/
def corner_arc_params {K : Type} [LinearOrderedField K] (tile : TilePart)
    (cell_center : Vec2 K) (half : K) : Vec2 K × K × K :=
  let cx := cell_center.x
  let cy := cell_center.y
  match tile with
  | .cornerNW => (⟨cx + half, cy - half⟩,  90, 180)
  | .cornerNE => (⟨cx - half, cy - half⟩,   0,  90)
  | .cornerSW => (⟨cx + half, cy + half⟩, 180, 270)
  | .cornerSE => (⟨cx - half, cy + half⟩, 270, 360)
  | _ => (cell_center, 0, 0)

namespace TrackGrid

variable {K : Type} [LinearOrderedField K]

/-- Returns `true` if `world` lies within the driveable area of a road tile.
The corner branch of the source compares `world.distance(arc_center)` (a
square root) against `tile_size - margin`; with both sides exact this is
equivalent to `0 ≤ tile_size - margin ∧ dist2 ≤ (tile_size - margin)^2`,
which is how the model states it. -/
def is_road_at [FloorRing K] (g : TrackGrid K) (world : Vec2 K) : Bool :=
  match g.world_to_cell world with
  | none => false
  | some (row, col) =>
    let tile := g.tile_at row col
    if !tile.is_road then false
    else
      let center := g.cell_center row col
      let half := g.tile_size * (1 / 2)
      let margin := wallThickness * (1 / 2)
      if tile.is_corner then
        let arcp := corner_arc_params tile center half
        decide (0 ≤ g.tile_size - margin ∧
          Vec2.dist2 world arcp.1 ≤ (g.tile_size - margin) * (g.tile_size - margin))
      else
        let edges := tile.open_edges
        if !edges.1 && decide (center.y + half - margin < world.y) then false
        else if !edges.2.1 && decide (world.y < center.y - half + margin) then false
        else if !edges.2.2.1 && decide (center.x + half - margin < world.x) then false
        else if !edges.2.2.2 && decide (world.x < center.x - half + margin) then false
        else true

/-- Inner loop of `find_spawn_cell`: index of the first `SpawnPoint` in a row. -/
def rowSpawnIdx : List TilePart → Option Nat
  | [] => none
  | t :: rest => if t = .spawnPoint then some 0 else (rowSpawnIdx rest).map (· + 1)

/-- Outer loop of `find_spawn_cell`, carrying the absolute index of the first
row still to scan. -/
def spawnCellAux : List (List TilePart) → Nat → Option (Nat × Nat)
  | [], _ => none
  | row :: rest, r =>
    match rowSpawnIdx row with
    | some c => some (r, c)
    | none => spawnCellAux rest (r + 1)

/-- Locates the `SpawnPoint` tile and returns its `(row, col)` coordinates. -/
def find_spawn_cell (g : TrackGrid K) : Option (Nat × Nat) :=
  spawnCellAux g.tiles 0

/-- Locates the `SpawnPoint` tile and returns `(world_centre, heading_radians)`;
the heading is exactly `0.0` (east). -/
def find_spawn (g : TrackGrid K) : Option (Vec2 K × K) :=
  (g.find_spawn_cell).map fun rc => (g.cell_center rc.1 rc.2, 0)

end TrackGrid

/-! ## Angle wrapping loops (`src/agent/observation.rs`, `src/maps/centerline.rs`)

The `while` loops subtract or add `2π` one full turn at a time; each pass
strictly decreases `⌈x⌉₊` of the scaled remainder, which provides the
termination measure. -/

/-- Loop `while a > PI { a -= 2π }` shared by `wrap_angle` and `wrap_to_pi`. -/
noncomputable def wrapSubLoop (a : ℝ) : ℝ :=
  if h : Real.pi < a then wrapSubLoop (a - 2 * Real.pi) else a
termination_by ⌈a / (2 * Real.pi)⌉₊
decreasing_by
  have hπ : (0 : ℝ) < Real.pi := Real.pi_pos
  have hx : 0 < a / (2 * Real.pi) := by
    apply div_pos <;> linarith
  have heq : (a - 2 * Real.pi) / (2 * Real.pi) = a / (2 * Real.pi) - 1 := by
    field_simp
  rw [heq]
  have h1 : 0 < ⌈a / (2 * Real.pi)⌉₊ := Nat.ceil_pos.mpr hx
  have h2 : ⌈a / (2 * Real.pi) - 1⌉₊ ≤ ⌈a / (2 * Real.pi)⌉₊ - 1 := by
    rw [Nat.ceil_le, Nat.cast_sub h1]
    have := Nat.le_ceil (a / (2 * Real.pi))
    push_cast
    linarith
  omega

/-- Loop `while angle < -PI { angle += 2π }` of `wrap_angle`. -/
noncomputable def wrapAddLoop (a : ℝ) : ℝ :=
  if h : a < -Real.pi then wrapAddLoop (a + 2 * Real.pi) else a
termination_by ⌈-a / (2 * Real.pi)⌉₊
decreasing_by
  have hπ : (0 : ℝ) < Real.pi := Real.pi_pos
  have hx : 0 < -a / (2 * Real.pi) := by
    apply div_pos <;> linarith
  have heq : -(a + 2 * Real.pi) / (2 * Real.pi) = -a / (2 * Real.pi) - 1 := by
    field_simp
    ring
  rw [heq]
  have h1 : 0 < ⌈-a / (2 * Real.pi)⌉₊ := Nat.ceil_pos.mpr hx
  have h2 : ⌈-a / (2 * Real.pi) - 1⌉₊ ≤ ⌈-a / (2 * Real.pi)⌉₊ - 1 := by
    rw [Nat.ceil_le, Nat.cast_sub h1]
    have := Nat.le_ceil (-a / (2 * Real.pi))
    push_cast
    linarith
  omega

/-- Loop `while a <= -PI { a += 2π }` of `wrap_to_pi` (non-strict guard). -/
noncomputable def wrapToPiAddLoop (a : ℝ) : ℝ :=
  if h : a ≤ -Real.pi then wrapToPiAddLoop (a + 2 * Real.pi) else a
termination_by ⌈-a / (2 * Real.pi)⌉₊
decreasing_by
  have hπ : (0 : ℝ) < Real.pi := Real.pi_pos
  have hx : 0 < -a / (2 * Real.pi) := by
    apply div_pos <;> linarith
  have heq : -(a + 2 * Real.pi) / (2 * Real.pi) = -a / (2 * Real.pi) - 1 := by
    field_simp
    ring
  rw [heq]
  have h1 : 0 < ⌈-a / (2 * Real.pi)⌉₊ := Nat.ceil_pos.mpr hx
  have h2 : ⌈-a / (2 * Real.pi) - 1⌉₊ ≤ ⌈-a / (2 * Real.pi)⌉₊ - 1 := by
    rw [Nat.ceil_le, Nat.cast_sub h1]
    have := Nat.le_ceil (-a / (2 * Real.pi))
    push_cast
    linarith
  omega

/-- Model of `wrap_angle` (observation.rs): subtract-loop first, add-loop second. -/
noncomputable def wrap_angle (a : ℝ) : ℝ := wrapAddLoop (wrapSubLoop a)

/-- Model of `wrap_to_pi` (centerline.rs): add-loop (non-strict) first, then
subtract-loop. -/
noncomputable def wrap_to_pi (a : ℝ) : ℝ := wrapSubLoop (wrapToPiAddLoop a)

/-- Model of `f32::atan2`: `atan2R y x` is the argument of the complex number
`x + y i`, valued in `(-π, π]`. -/
noncomputable def atan2R (y x : ℝ) : ℝ := Complex.arg ⟨x, y⟩

/-! ## Centerline compiler (`src/maps/centerline.rs`) -/

/-- Number of samples used to approximate each quarter-circle centreline arc. -/
def CENTERLINE_ARC_SAMPLES : Nat := 8

/-- Errors that can occur while constructing a centreline from a tile grid. -/
inductive CenterlineBuildError where
  | invalidStartCell (row col : Nat)
  | deadEnd (row col : Nat)
  | ambiguousBranch (row col : Nat) (options : List GridDir)
  | notClosedLoop
  | tooShort
  deriving DecidableEq

/-- Model of `step_cell`: `usize::checked_add_signed` yields `None` when the
result would be negative. -/
def step_cell (cell : Nat × Nat) (dir : GridDir) : Option (Nat × Nat) :=
  let d := dir.delta
  let next_row : Int := (cell.1 : Int) + d.1
  let next_col : Int := (cell.2 : Int) + d.2
  if next_row < 0 ∨ next_col < 0 then none else some (next_row.toNat, next_col.toNat)

/-- Model of `choose_next_dir`: collect open directions in N, S, E, W order,
drop the incoming one, and demand exactly one remaining option. -/
def choose_next_dir (g : TrackGrid ℝ) (cell : Nat × Nat) (incoming : GridDir) :
    Except CenterlineBuildError GridDir :=
  let tile := g.tile_at cell.1 cell.2
  let e := tile.open_edges
  let options : List GridDir :=
    ((if e.1 then [GridDir.north] else []) ++ (if e.2.1 then [GridDir.south] else []) ++
      (if e.2.2.1 then [GridDir.east] else []) ++ (if e.2.2.2 then [GridDir.west] else []))
  let options := options.filter (fun d => d ≠ incoming)
  match options with
  | [only] => .ok only
  | [] => .error (.deadEnd cell.1 cell.2)
  | many => .error (.ambiguousBranch cell.1 cell.2 many)

/-- Loop body of `traverse_cells`.  The Rust `loop` needs no fuel: every
iteration that neither returns nor breaks inserts a distinct in-bounds cell
into `visited`, so at most `rows*cols + 1` iterations run; the model passes
`rows*cols + 2` units of fuel, making the exhaustion branch unreachable. -/
def traverseAux (g : TrackGrid ℝ) (start : Nat × Nat) (start_dir : GridDir) :
    Nat → List (Nat × Nat) → List GridDir → List (Nat × Nat) → Nat × Nat → GridDir →
    Except CenterlineBuildError (List (Nat × Nat) × List GridDir)
  | 0, _, _, _, _, _ => .error .notClosedLoop
  | fuel + 1, cells, dirs, visited, current, incoming =>
    let nextDirRes : Except CenterlineBuildError GridDir :=
      if current = start ∧ dirs.isEmpty then .ok start_dir
      else choose_next_dir g current incoming
    match nextDirRes with
    | .error e => .error e
    | .ok next_dir =>
      match step_cell current next_dir with
      | none => .error (.deadEnd current.1 current.2)
      | some next =>
        let dirs := dirs ++ [next_dir]
        if next = start then .ok (cells, dirs)
        else if next ∈ visited then .error .notClosedLoop
        else if g.tile_at next.1 next.2 = .empty then .error (.deadEnd current.1 current.2)
        else
          traverseAux g start start_dir fuel (cells ++ [next]) dirs (visited ++ [next])
            next next_dir.opposite

/-- Model of `traverse_cells`. -/
def traverse_cells (g : TrackGrid ℝ) (start : Nat × Nat) (start_dir : GridDir) :
    Except CenterlineBuildError (List (Nat × Nat) × List GridDir) :=
  if g.tile_at start.1 start.2 = .empty then
    .error (.invalidStartCell start.1 start.2)
  else
    traverseAux g start start_dir (g.rows * g.cols + 2) [start] [] [start] start
      start_dir.opposite

/-- Model of `dir_unit`. -/
def dir_unit (d : GridDir) : Vec2 ℝ :=
  match d with
  | .north => ⟨0, 1⟩
  | .south => ⟨0, -1⟩
  | .east => ⟨1, 0⟩
  | .west => ⟨-1, 0⟩

/-- Model of `corner_arc_center` (identity on non-corner tiles, as in the
catch-all arm of the source). -/
def corner_arc_center (tile : TilePart) (cell_center : Vec2 ℝ) (half : ℝ) : Vec2 ℝ :=
  match tile with
  | .cornerNW => ⟨cell_center.x + half, cell_center.y - half⟩
  | .cornerNE => ⟨cell_center.x - half, cell_center.y - half⟩
  | .cornerSW => ⟨cell_center.x + half, cell_center.y + half⟩
  | .cornerSE => ⟨cell_center.x - half, cell_center.y + half⟩
  | _ => cell_center

/-- Model of `push_unique`: drop the candidate when it lies within `1e-3`
(Euclidean distance) of the last point already pushed. -/
noncomputable def push_unique (points : List (Vec2 ℝ)) (p : Vec2 ℝ) : List (Vec2 ℝ) :=
  match points.getLast? with
  | some last => if Real.sqrt (Vec2.dist2 last p) < 1 / 1000 then points else points ++ [p]
  | none => points ++ [p]

/-- Model of `push_corner_arc_samples`: the first sample (`i = 0`) is the entry
point already pushed, so the loop runs `i = 1 ..= CENTERLINE_ARC_SAMPLES`. -/
noncomputable def push_corner_arc_samples (points : List (Vec2 ℝ)) (center : Vec2 ℝ)
    (radius : ℝ) (entry exit : Vec2 ℝ) : List (Vec2 ℝ) :=
  let a0 := atan2R (entry - center).y (entry - center).x
  let a1 := atan2R (exit - center).y (exit - center).x
  let delta := wrap_to_pi (a1 - a0)
  (List.range CENTERLINE_ARC_SAMPLES).foldl
    (fun pts i =>
      let t : ℝ := ((i + 1 : Nat) : ℝ) / (CENTERLINE_ARC_SAMPLES : ℝ)
      let a := a0 + delta * t
      push_unique pts (center + radius • (⟨Real.cos a, Real.sin a⟩ : Vec2 ℝ)))
    points

/-- Model of `build_polyline_points`.  The `getD` defaults are never read: the
source indexes `cells`/`dirs` only in range. -/
noncomputable def build_polyline_points (g : TrackGrid ℝ) (cells : List (Nat × Nat))
    (dirs : List GridDir) : List (Vec2 ℝ) :=
  let half := g.tile_size * (1 / 2)
  let n := cells.length
  if n = 0 then []
  else
    let points := (List.range n).foldl
      (fun pts i =>
        let cell := cells.getD i (0, 0)
        let tile := g.tile_at cell.1 cell.2
        let center := g.cell_center cell.1 cell.2
        let prev_dir := if i = 0 then dirs.getD (n - 1) .north else dirs.getD (i - 1) .north
        let entry_dir := prev_dir.opposite
        let exit_dir := dirs.getD i .north
        let entry := center + half • dir_unit entry_dir
        let exit := center + half • dir_unit exit_dir
        let pts := push_unique pts entry
        if tile.is_corner then
          push_corner_arc_samples pts (corner_arc_center tile center half) half entry exit
        else
          push_unique pts exit)
      []
    match points.head?, points.getLast? with
    | some first, some last =>
      if Real.sqrt (Vec2.dist2 last first) < 1 / 1000 then points.dropLast else points
    | _, _ => points

/-- Point `i` of a polyline (`points[i]`); the default is never read in-range. -/
noncomputable def ptAt (pts : List (Vec2 ℝ)) (i : Nat) : Vec2 ℝ := pts.getD i 0

/-- Distance of segment `i`: `points[i].distance(points[(i+1) % n])`. -/
noncomputable def segDist (pts : List (Vec2 ℝ)) (i : Nat) : ℝ :=
  Real.sqrt (Vec2.dist2 (ptAt pts i) (ptAt pts ((i + 1) % pts.length)))

/-- Cumulative length before segment `i`.  The Rust loop records its running
total into `cumulative[i]` before adding segment `i`, so entry `i` is the sum
of the first `i` segment distances and the returned total is the full sum. -/
noncomputable def cumLen (pts : List (Vec2 ℝ)) (i : Nat) : ℝ :=
  ∑ k ∈ Finset.range i, segDist pts k

/-- Model of `compute_lengths`. -/
noncomputable def compute_lengths (pts : List (Vec2 ℝ)) : List ℝ × ℝ :=
  ((List.range pts.length).map (cumLen pts), cumLen pts pts.length)

/-- A closed polyline centreline for progress measurement. -/
structure TrackCenterline where
  points : List (Vec2 ℝ)
  cumulative_lengths : List ℝ
  total_length : ℝ

/-- Model of `TrackCenterline::build_closed_loop`. -/
noncomputable def build_closed_loop (g : TrackGrid ℝ) (start_cell : Nat × Nat)
    (start_dir : GridDir) : Except CenterlineBuildError TrackCenterline :=
  match traverse_cells g start_cell start_dir with
  | .error e => .error e
  | .ok (cells, dirs) =>
    let points := build_polyline_points g cells dirs
    if points.length < 3 then .error .tooShort
    else
      let lengths := compute_lengths points
      .ok ⟨points, lengths.1, lengths.2⟩

/-! ## Centerline projection (`TrackCenterline::project`)

The source keeps a running `best` whose `distance` starts at `f32::INFINITY`
and replaces it whenever `dist < best.distance`, where both distances are
square roots of non-negative quantities.  `Real.sqrt` is strictly monotone on
non-negatives, so the selection is modelled on squared distances, with
`Option` standing for the not-yet-replaced infinite initial candidate (a real
distance always compares below infinity, so the first non-degenerate segment
always replaces it). -/

/-- Result of projecting a point onto a centreline. -/
structure CenterlineProjection where
  closest_point : Vec2 ℝ
  tangent : Vec2 ℝ
  s : ℝ
  fraction : ℝ
  distance : ℝ

/-- Segment start `a = points[i]`. -/
noncomputable def segA (pts : List (Vec2 ℝ)) (i : Nat) : Vec2 ℝ := ptAt pts i

/-- Segment end `b = points[(i + 1) % n]`. -/
noncomputable def segB (pts : List (Vec2 ℝ)) (i : Nat) : Vec2 ℝ :=
  ptAt pts ((i + 1) % pts.length)

/-- Segment vector `d = b - a`. -/
noncomputable def segV (pts : List (Vec2 ℝ)) (i : Nat) : Vec2 ℝ := segB pts i - segA pts i

/-- Squared segment length `len2`. -/
noncomputable def segLen2 (pts : List (Vec2 ℝ)) (i : Nat) : ℝ :=
  Vec2.length_squared (segV pts i)

/-- Degeneracy threshold of the projection loop (`1e-8`). -/
noncomputable def degenEps : ℝ := 1 / 100000000

/-- Clamped projection parameter `t` of `world` onto segment `i`. -/
noncomputable def candT (pts : List (Vec2 ℝ)) (world : Vec2 ℝ) (i : Nat) : ℝ :=
  clampK (Vec2.dot (world - segA pts i) (segV pts i) / segLen2 pts i) 0 1

/-- Candidate closest point `p = a + d * t` on segment `i`. -/
noncomputable def candP (pts : List (Vec2 ℝ)) (world : Vec2 ℝ) (i : Nat) : Vec2 ℝ :=
  segA pts i + candT pts world i • segV pts i

/-- Squared candidate distance `world.distance(p)^2` for segment `i`. -/
noncomputable def candD2 (pts : List (Vec2 ℝ)) (world : Vec2 ℝ) (i : Nat) : ℝ :=
  Vec2.dist2 world (candP pts world i)

/-- Accumulator of the projection loop: winning segment index plus its
`t`, closest point, and squared distance. -/
structure SelState where
  idx : Nat
  t : ℝ
  p : Vec2 ℝ
  d2 : ℝ

/-- Candidate record for segment `i`. -/
noncomputable def mkSel (pts : List (Vec2 ℝ)) (world : Vec2 ℝ) (i : Nat) : SelState :=
  ⟨i, candT pts world i, candP pts world i, candD2 pts world i⟩

/-- One iteration of the projection loop over segment `i`. -/
noncomputable def selectStep (pts : List (Vec2 ℝ)) (world : Vec2 ℝ)
    (best : Option SelState) (i : Nat) : Option SelState :=
  if segLen2 pts i ≤ degenEps then best
  else
    match best with
    | none => some (mkSel pts world i)
    | some b => if candD2 pts world i < b.d2 then some (mkSel pts world i) else best

/-- The winning candidate over all segments, in polyline order. -/
noncomputable def selectBest (pts : List (Vec2 ℝ)) (world : Vec2 ℝ) : Option SelState :=
  (List.range pts.length).foldl (selectStep pts world) none

/-- Model of `TrackCenterline::project`.  In the `none` branch (every segment
degenerate) the source returns its initial candidate whose `distance` is
`f32::INFINITY`; infinity has no real counterpart, the branch is unreachable
once any segment is non-degenerate, and no theorem relies on that field. -/
noncomputable def project (cl : TrackCenterline) (world : Vec2 ℝ) : CenterlineProjection :=
  match selectBest cl.points world with
  | none => ⟨ptAt cl.points 0, ⟨1, 0⟩, 0, 0, 0⟩
  | some b =>
    let seg_len := Real.sqrt (segLen2 cl.points b.idx)
    let s := cl.cumulative_lengths.getD b.idx 0 + seg_len * b.t
    { closest_point := b.p
      tangent := (1 / seg_len) • segV cl.points b.idx
      s := s
      fraction := clampK (s / cl.total_length) 0 1
      distance := Real.sqrt b.d2 }

/-! ## Observation helpers (`src/agent/observation.rs`) -/

/-- Model of `Vec2::normalize_or_zero`: the zero vector maps to zero, anything
else to the unit vector in the same direction. -/
noncomputable def normalize_or_zero (v : Vec2 ℝ) : Vec2 ℝ :=
  if v = 0 then 0 else (1 / Real.sqrt (Vec2.length_squared v)) • v

/-- Model of `signed_angle_between` (`to_angle` is `atan2(y, x)`). -/
noncomputable def signed_angle_between (vfrom vto : Vec2 ℝ) : ℝ :=
  let from_n := normalize_or_zero vfrom
  let to_n := normalize_or_zero vto
  if from_n = 0 ∨ to_n = 0 then 0
  else wrap_angle (atan2R to_n.y to_n.x - atan2R from_n.y from_n.x)

/-- Model of `refine_boundary_distance`; the source runs the bisection a fixed
8 times, here the iteration count is the first argument. -/
noncomputable def refine_boundary_distance (g : TrackGrid ℝ) (origin direction : Vec2 ℝ) :
    Nat → ℝ → ℝ → ℝ
  | 0, inside, _ => inside
  | k + 1, inside, outside =>
    let mid := (1 / 2) * (inside + outside)
    let point := origin + mid • direction
    if g.is_road_at point then refine_boundary_distance g origin direction k mid outside
    else refine_boundary_distance g origin direction k inside mid

/-- The march loop of `raycast_to_road_boundary`.  Each pass advances
`distance` by `step > 0`, so `⌈(max_range - distance)/step + 1⌉₊` strictly
decreases while the guard `distance ≤ max_range` holds. -/
noncomputable def raycastMarch (g : TrackGrid ℝ) (origin dir : Vec2 ℝ)
    (max_range step : ℝ) (hstep : 0 < step) (previous_distance distance : ℝ) :
    ℝ × Vec2 ℝ :=
  if h : distance ≤ max_range then
    let point := origin + distance • dir
    if g.is_road_at point then
      raycastMarch g origin dir max_range step hstep distance (distance + step)
    else
      let refined := refine_boundary_distance g origin dir 8 previous_distance distance
      (refined, origin + refined • dir)
  else (max_range, origin + max_range • dir)
termination_by ⌈(max_range - distance) / step + 1⌉₊
decreasing_by
  have hx : 0 < (max_range - distance) / step + 1 := by
    have : 0 ≤ (max_range - distance) / step := div_nonneg (by linarith) (le_of_lt hstep)
    linarith
  have heq : (max_range - (distance + step)) / step + 1 =
      (max_range - distance) / step + 1 - 1 := by
    field_simp
    ring
  rw [heq]
  have h1 : 0 < ⌈(max_range - distance) / step + 1⌉₊ := Nat.ceil_pos.mpr hx
  have h2 : ⌈(max_range - distance) / step + 1 - 1⌉₊ ≤ ⌈(max_range - distance) / step + 1⌉₊ - 1 := by
    rw [Nat.ceil_le, Nat.cast_sub h1]
    have := Nat.le_ceil ((max_range - distance) / step + 1)
    push_cast
    linarith
  omega

/-- Model of `raycast_to_road_boundary`.  The configured step is floored at
`0.5` (`step.max(0.5)`) before the march starts at `distance = step` with
`previous_distance = 0`. -/
noncomputable def raycast_to_road_boundary (g : TrackGrid ℝ) (origin direction : Vec2 ℝ)
    (max_range step : ℝ) : ℝ × Vec2 ℝ :=
  let dir := normalize_or_zero direction
  if dir = 0 then (0, origin)
  else
    raycastMarch g origin dir max_range (max step (1 / 2))
      (lt_of_lt_of_le one_half_pos (le_max_right step (1 / 2))) 0 (max step (1 / 2))

/-! ## Claim-specific concrete grids and candidate definitions -/

/-- The 1-row grid `[StraightH, SpawnPoint, StraightH]` of the C3 scenario. -/
noncomputable def grid13 : TrackGrid ℝ :=
  ⟨[[.straightH, .spawnPoint, .straightH]], 100, ⟨0, 0⟩⟩

/-- The 2×2 all-Crossroads grid of the C6 scenario. -/
noncomputable def grid22 : TrackGrid ℝ :=
  ⟨[[.crossroads, .crossroads], [.crossroads, .crossroads]], 100, ⟨0, 0⟩⟩

/-- Outcome of compiling `grid22` from `(r, c)` heading `d`: if the first step
leaves the grid the traversal dead-ends at the start cell; otherwise the
neighbouring crossroads offers three onward options and the build rejects the
ambiguous branch there. -/
def grid22_expected (r c : Nat) (d : GridDir) : CenterlineBuildError :=
  match step_cell (r, c) d with
  | none => .deadEnd r c
  | some (r2, c2) =>
    if r2 ≤ 1 ∧ c2 ≤ 1 then
      .ambiguousBranch r2 c2
        ([GridDir.north, .south, .east, .west].filter (fun x => x ≠ d.opposite))
    else .deadEnd r c

/-- Tiny single-tile grid used by the C9 witness. -/
noncomputable def grid9 : TrackGrid ℝ := ⟨[[.straightH]], 100, ⟨0, 0⟩⟩

/-- Grid with two `SpawnPoint` tiles used by the C10 witness; the row-major
first one is at `(0, 1)`. -/
def gridSp : TrackGrid ℚ :=
  ⟨[[.empty, .spawnPoint, .spawnPoint], [.spawnPoint, .empty, .empty]], 10, ⟨0, 0⟩⟩

/-- Shorthand for the closed-edge mask bit of a tile in direction `d`
(`true` when the edge facing `d` is a wall). -/
def edgeClosed (t : TilePart) : GridDir → Bool
  | .north => !t.open_edges.1
  | .south => !t.open_edges.2.1
  | .east => !t.open_edges.2.2.1
  | .west => !t.open_edges.2.2.2

/-- Signed inward distance from `p` to the `d`-edge line of cell `(r, c)`
(positive on the interior side of that edge). -/
def edgeGap (g : TrackGrid ℚ) (r c : Nat) (d : GridDir) (p : Vec2 ℚ) : ℚ :=
  match d with
  | .north => (g.origin.y - (r : ℚ) * g.tile_size) - p.y
  | .south => p.y - (g.origin.y - ((r : ℚ) + 1) * g.tile_size)
  | .east => (g.origin.x + ((c : ℚ) + 1) * g.tile_size) - p.x
  | .west => p.x - (g.origin.x + (c : ℚ) * g.tile_size)

/-- The half-open world rectangle of cell `(r, c)` under the `world_to_cell`
convention (left/top edges included, right/bottom excluded). -/
def inCellRect (g : TrackGrid ℚ) (r c : Nat) (p : Vec2 ℚ) : Prop :=
  g.origin.x + (c : ℚ) * g.tile_size ≤ p.x ∧
    p.x < g.origin.x + ((c : ℚ) + 1) * g.tile_size ∧
    g.origin.y - ((r : ℚ) + 1) * g.tile_size < p.y ∧
    p.y ≤ g.origin.y - (r : ℚ) * g.tile_size

def gridC5 : TrackGrid ℚ := ⟨[[.straightV, .straightV]], 100, ⟨0, 0⟩⟩

/-- Non-degeneracy of segment `i`: its squared length exceeds the `1e-8`
threshold, so the projection loop does not skip it. -/
noncomputable def nondeg (pts : List (Vec2 ℝ)) (i : Nat) : Prop :=
  degenEps < segLen2 pts i

/-- The full projection record the loop would produce if segment `i` won. -/
noncomputable def candProj (cl : TrackCenterline) (world : Vec2 ℝ) (i : Nat) :
    CenterlineProjection :=
  let seg_len := Real.sqrt (segLen2 cl.points i)
  let s := cl.cumulative_lengths.getD i 0 + seg_len * candT cl.points world i
  { closest_point := candP cl.points world i
    tangent := (1 / seg_len) • segV cl.points i
    s := s
    fraction := clampK (s / cl.total_length) 0 1
    distance := Real.sqrt (candD2 cl.points world i) }

noncomputable def cl4 : TrackCenterline :=
  ⟨[⟨0, 0⟩, ⟨4, 0⟩, ⟨4, 4⟩, ⟨0, 4⟩],
    (compute_lengths [⟨0, 0⟩, ⟨4, 0⟩, ⟨4, 4⟩, ⟨0, 4⟩]).1,
    (compute_lengths [⟨0, 0⟩, ⟨4, 0⟩, ⟨4, 4⟩, ⟨0, 4⟩]).2⟩

/-! ## Theorems -/

namespace Vec2

variable {K : Type} [LinearOrderedField K]

@[simp] theorem zero_def : (0 : Vec2 K) = ⟨0, 0⟩ := rfl

@[simp] theorem add_def (a b : Vec2 K) : a + b = ⟨a.x + b.x, a.y + b.y⟩ := rfl

@[simp] theorem sub_def (a b : Vec2 K) : a - b = ⟨a.x - b.x, a.y - b.y⟩ := rfl

@[simp] theorem smul_def (c : K) (v : Vec2 K) : c • v = ⟨c * v.x, c * v.y⟩ := rfl

theorem dist2_nonneg (a b : Vec2 K) : 0 ≤ dist2 a b := by
  have hx := mul_self_nonneg (a.x - b.x)
  have hy := mul_self_nonneg (a.y - b.y)
  unfold dist2
  linarith

theorem dist2_eq_zero_iff (a b : Vec2 K) : dist2 a b = 0 ↔ a = b := by
  constructor
  · intro h
    have hx := mul_self_nonneg (a.x - b.x)
    have hy := mul_self_nonneg (a.y - b.y)
    have hx0 : (a.x - b.x) * (a.x - b.x) = 0 := by unfold dist2 at h; linarith
    have hy0 : (a.y - b.y) * (a.y - b.y) = 0 := by unfold dist2 at h; linarith
    have hx1 : a.x = b.x := by
      have := mul_self_eq_zero.mp hx0
      linarith
    have hy1 : a.y = b.y := by
      have := mul_self_eq_zero.mp hy0
      linarith
    cases a; cases b; simp_all
  · rintro rfl
    unfold dist2
    ring

end Vec2

theorem clampK_le {K : Type} [LinearOrderedField K] {lo hi : K} (x : K) (h : lo ≤ hi) :
    clampK x lo hi ≤ hi := by
  unfold clampK
  split_ifs <;> linarith

theorem le_clampK {K : Type} [LinearOrderedField K] {lo hi : K} (x : K) (h : lo ≤ hi) :
    lo ≤ clampK x lo hi := by
  unfold clampK
  split_ifs <;> linarith

theorem clampK_eq_self {K : Type} [LinearOrderedField K] {x lo hi : K}
    (h1 : lo ≤ x) (h2 : x ≤ hi) : clampK x lo hi = x := by
  unfold clampK
  split_ifs <;> linarith

theorem clampK_idem {K : Type} [LinearOrderedField K] (x lo hi : K) (h : lo ≤ hi) :
    clampK (clampK x lo hi) lo hi = clampK x lo hi :=
  clampK_eq_self (le_clampK x h) (clampK_le x h)

/-! ## Shared helper lemmas -/

theorem clampK_pos_iff {K : Type} [LinearOrderedField K] (x : K) :
    0 < clampK x 0 1 ↔ 0 < x := by
  unfold clampK
  split_ifs <;> constructor <;> intro <;> linarith

/-- The stepper applies `clamp` to both inputs internally, so pre-clamping the
inputs of the caller never changes the result. -/
theorem step_car_dynamics_clamps {K : Type} [LinearOrderedField K] (cosF sinF : K → K)
    (state : CarKinematicState K) (steering throttle dt : K)
    (params : CarDynamicsParams K) :
    step_car_dynamics cosF sinF state steering throttle dt params =
      step_car_dynamics cosF sinF state (clampK steering (-1) 1) (clampK throttle 0 1)
        dt params := by
  simp only [step_car_dynamics, clampK_idem steering (-1) 1 (by norm_num : (-1 : K) ≤ 1),
    clampK_idem throttle 0 1 (by norm_num : (0 : K) ≤ 1), clampK_pos_iff]

/-! ## C1 -/

/-- C1: for every initial kinematic state, every finite sequence of
(steering, throttle) action pairs, every dt sequence, and every parameter set,
two independent runs of `step_car_dynamics` produce exactly equal position,
velocity, and heading sequences.  The stepper is a pure function of its
arguments (no hidden state), so equal inputs give equal trajectories. -/
theorem c1_stepper_deterministic {K : Type} [LinearOrderedField K] (cosF sinF : K → K)
    (params1 params2 : CarDynamicsParams K) (s1 s2 : CarKinematicState K)
    (acts1 acts2 : List (K × K × K))
    (hs : s1 = s2) (ha : acts1 = acts2) (hp : params1 = params2) :
    run_car_dynamics cosF sinF params1 s1 acts1 =
      run_car_dynamics cosF sinF params2 s2 acts2 := by
  subst hs; subst ha; subst hp; rfl

theorem c1_stepper_deterministic_witness :
    run_car_dynamics (fun _ : ℚ => 1) (fun _ => 0) ⟨4, 1500, 985 / 1000⟩ ⟨0, 0, 0⟩
        [(1, 1, 1 / 60), (-2, 0, 1 / 60)] =
      run_car_dynamics (fun _ : ℚ => 1) (fun _ => 0) ⟨4, 1500, 985 / 1000⟩ ⟨0, 0, 0⟩
        [(1, 1, 1 / 60), (-2, 0, 1 / 60)] :=
  c1_stepper_deterministic _ _ _ _ _ _ _ _ rfl rfl rfl

/-! ## C2 -/

/-- C2 counterexample: there is no input on which the stepper result differs
from the result on pre-clamped inputs — the source clamps `steering` to
`[-1, 1]` and `throttle` to `[0, 1]` itself (`physics.rs` lines 66 and 70), so
the claim that raw out-of-range inputs are used as-is is false. -/
theorem c2_counterexample :
    ¬ ∃ (cosF sinF : ℚ → ℚ) (state : CarKinematicState ℚ)
        (steering throttle dt : ℚ) (params : CarDynamicsParams ℚ),
      (steering < -1 ∨ 1 < steering ∨ throttle < 0 ∨ 1 < throttle) ∧
        step_car_dynamics cosF sinF state steering throttle dt params ≠
          step_car_dynamics cosF sinF state (clampK steering (-1) 1)
            (clampK throttle 0 1) dt params := by
  rintro ⟨cosF, sinF, state, steering, throttle, dt, params, -, hne⟩
  exact hne (step_car_dynamics_clamps cosF sinF state steering throttle dt params)

/-- C2 amended: `step_car_dynamics` itself clamps steering to `[-1, 1]` and
throttle to `[0, 1]`, so for every input (in or out of range) the result is
identical to the result on pre-clamped inputs; callers need not clamp. -/
theorem c2_stepper_clamps_internally {K : Type} [LinearOrderedField K]
    (cosF sinF : K → K) (state : CarKinematicState K) (steering throttle dt : K)
    (params : CarDynamicsParams K) :
    step_car_dynamics cosF sinF state steering throttle dt params =
      step_car_dynamics cosF sinF state (clampK steering (-1) 1) (clampK throttle 0 1)
        dt params :=
  step_car_dynamics_clamps cosF sinF state steering throttle dt params

/-! ## C3 -/

/-- C3 counterexample: compiling the 1×3 row from the spawn cell heading East
does not yield `TooShort` — the traversal walks east off the end of the row
first. -/
theorem c3_counterexample : build_closed_loop grid13 (0, 1) .east ≠ .error .tooShort := by
  rw [show build_closed_loop grid13 (0, 1) .east = .error (.deadEnd 0 2) from rfl]
  simp

/-- C3 amended: compiling the 1×3 `[StraightH, SpawnPoint, StraightH]` row from
the middle (spawn) cell heading East fails, but with `DeadEnd` at cell
`(0, 2)` (the traversal steps east out of the grid before any polyline is
built), not with `TooShort`. -/
theorem c3_deadEnd : build_closed_loop grid13 (0, 1) .east = .error (.deadEnd 0 2) := rfl

/-! ## C6 -/

/-- C6 counterexample: from start cell `(0, 0)` heading North the 2×2
all-Crossroads grid fails with `DeadEnd`, not `AmbiguousBranch` — the first
step leaves the grid before any branching cell is consulted. -/
theorem c6_counterexample :
    ¬ ∃ (row col : Nat) (options : List GridDir),
      build_closed_loop grid22 (0, 0) .north =
        .error (.ambiguousBranch row col options) := by
  rintro ⟨row, col, options, h⟩
  rw [show build_closed_loop grid22 (0, 0) .north = .error (.deadEnd 0 0) from rfl] at h
  simp at h

/-- C6 amended: for every start cell of the 2×2 all-Crossroads grid and every
start direction, compilation fails (it never silently picks a branch): with
`AmbiguousBranch` at the neighbouring cell when the first step stays inside
the grid, and with `DeadEnd` at the start cell when the first step leaves the
grid. -/
theorem c6_all_crossroads_rejected (r c : Nat) (d : GridDir) (hr : r < 2) (hc : c < 2) :
    build_closed_loop grid22 (r, c) d = .error (grid22_expected r c d) := by
  interval_cases r <;> interval_cases c <;> cases d <;> rfl

theorem c6_all_crossroads_rejected_witness :
    (0 : Nat) < 2 ∧
      build_closed_loop grid22 (0, 0) .east = .error (grid22_expected 0 0 .east) :=
  ⟨by norm_num, c6_all_crossroads_rejected 0 0 .east (by norm_num) (by norm_num)⟩

/-! ## C9 -/

theorem raycastMarch_congr (g : TrackGrid ℝ) (origin dir : Vec2 ℝ) (max_range : ℝ)
    (s1 s2 : ℝ) (h1 : 0 < s1) (h2 : 0 < s2) (prev d1 d2 : ℝ) (hs : s1 = s2)
    (hd : d1 = d2) :
    raycastMarch g origin dir max_range s1 h1 prev d1 =
      raycastMarch g origin dir max_range s2 h2 prev d2 := by
  subst hs; subst hd; rfl

/-- C9: the raycast march step size is floored at `0.5`: for every configured
step `s ≤ 0.5`, `raycast_to_road_boundary` behaves identically to step `0.5`
(the source takes `step.max(0.5)` before marching), so smaller configured
steps do not refine the coarse march. -/
theorem c9_ray_step_floor (g : TrackGrid ℝ) (origin direction : Vec2 ℝ)
    (max_range s : ℝ) (h : s ≤ 1 / 2) :
    raycast_to_road_boundary g origin direction max_range s =
      raycast_to_road_boundary g origin direction max_range (1 / 2) := by
  unfold raycast_to_road_boundary
  by_cases hd : normalize_or_zero direction = 0
  · rw [if_pos hd, if_pos hd]
  · rw [if_neg hd, if_neg hd]
    have hmax : max s (1 / 2 : ℝ) = max (1 / 2 : ℝ) (1 / 2) := by
      rw [max_eq_right h, max_self]
    exact raycastMarch_congr _ _ _ _ _ _ _ _ _ _ _ hmax hmax

theorem c9_ray_step_floor_witness :
    (1 / 4 : ℝ) ≤ 1 / 2 ∧
      raycast_to_road_boundary grid9 ⟨50, -50⟩ ⟨1, 0⟩ 375 (1 / 4) =
        raycast_to_road_boundary grid9 ⟨50, -50⟩ ⟨1, 0⟩ 375 (1 / 2) :=
  ⟨by norm_num, c9_ray_step_floor grid9 ⟨50, -50⟩ ⟨1, 0⟩ 375 (1 / 4) (by norm_num)⟩

/-! ## C7 -/

theorem wrapSubLoop_le (a : ℝ) : wrapSubLoop a ≤ Real.pi := by
  induction a using wrapSubLoop.induct with
  | case1 a h ih => rw [wrapSubLoop, dif_pos h]; exact ih
  | case2 a h => rw [wrapSubLoop, dif_neg h]; linarith

theorem wrapAddLoop_mem (a : ℝ) (ha : a ≤ Real.pi) :
    -Real.pi ≤ wrapAddLoop a ∧ wrapAddLoop a ≤ Real.pi := by
  induction a using wrapAddLoop.induct with
  | case1 a h ih =>
    rw [wrapAddLoop, dif_pos h]
    exact ih (by have := Real.pi_pos; linarith)
  | case2 a h => rw [wrapAddLoop, dif_neg h]; constructor <;> linarith

/-- C7 counterexample: with car forward vector `(-1, 0)` and centerline tangent
`(1, 0)` (both nonzero), the sensor heading error is exactly `-π`, which is not
in the half-open interval `(-π, π]`: `to_angle` yields `0 - π = -π` and both
wrap loops leave `-π` unchanged (their guards are strict). -/
theorem c7_counterexample :
    (⟨-1, 0⟩ : Vec2 ℝ) ≠ 0 ∧ (⟨1, 0⟩ : Vec2 ℝ) ≠ 0 ∧
      signed_angle_between ⟨-1, 0⟩ ⟨1, 0⟩ = -Real.pi ∧
      ¬ (-Real.pi < signed_angle_between ⟨-1, 0⟩ ⟨1, 0⟩) := by
  have hpi := Real.pi_pos
  have hm : normalize_or_zero ⟨-1, 0⟩ = (⟨-1, 0⟩ : Vec2 ℝ) := by
    rw [normalize_or_zero, if_neg (by simp [Vec2.mk.injEq])]
    norm_num [Vec2.length_squared, Vec2.smul_def]
  have hp : normalize_or_zero ⟨1, 0⟩ = (⟨1, 0⟩ : Vec2 ℝ) := by
    rw [normalize_or_zero, if_neg (by simp [Vec2.mk.injEq])]
    norm_num [Vec2.length_squared, Vec2.smul_def]
  have h1 : atan2R 0 1 = 0 := by
    rw [atan2R, show (⟨1, 0⟩ : ℂ) = 1 by norm_num [Complex.ext_iff], Complex.arg_one]
  have h2 : atan2R 0 (-1) = Real.pi := by
    rw [atan2R, show (⟨-1, 0⟩ : ℂ) = -1 by norm_num [Complex.ext_iff], Complex.arg_neg_one]
  have hval : signed_angle_between ⟨-1, 0⟩ ⟨1, 0⟩ = -Real.pi := by
    rw [signed_angle_between]
    simp only [hm, hp]
    rw [if_neg (by simp [Vec2.mk.injEq])]
    simp only [h1, h2]
    rw [show (0 : ℝ) - Real.pi = -Real.pi by ring]
    rw [wrap_angle, wrapSubLoop, dif_neg (by linarith), wrapAddLoop, dif_neg (by linarith)]
  refine ⟨by simp [Vec2.mk.injEq], by simp [Vec2.mk.injEq], hval, ?_⟩
  rw [hval]
  exact lt_irrefl _

/-- C7 amended: for every nonzero car forward vector and nonzero centerline
tangent vector, the signed heading error lies in the closed interval
`[-π, π]` — the lower endpoint `-π` is attainable (for antiparallel vectors),
so the interval is closed rather than half-open. -/
theorem c7_heading_error_range (vfrom vto : Vec2 ℝ) (h1 : vfrom ≠ 0) (h2 : vto ≠ 0) :
    -Real.pi ≤ signed_angle_between vfrom vto ∧
      signed_angle_between vfrom vto ≤ Real.pi := by
  have hpi := Real.pi_pos
  rw [signed_angle_between]
  split_ifs with h
  · constructor <;> linarith
  · exact wrapAddLoop_mem _ (wrapSubLoop_le _)

theorem c7_heading_error_range_witness :
    (⟨1, 0⟩ : Vec2 ℝ) ≠ 0 ∧
      (-Real.pi ≤ signed_angle_between ⟨1, 0⟩ ⟨1, 0⟩ ∧
        signed_angle_between ⟨1, 0⟩ ⟨1, 0⟩ ≤ Real.pi) :=
  ⟨by simp [Vec2.mk.injEq],
    c7_heading_error_range ⟨1, 0⟩ ⟨1, 0⟩ (by simp [Vec2.mk.injEq]) (by simp [Vec2.mk.injEq])⟩

/-! ## C10 -/

namespace TrackGrid

theorem rowSpawnIdx_none_iff (row : List TilePart) :
    rowSpawnIdx row = none ↔ ∀ j, row.getD j .empty ≠ .spawnPoint := by
  induction row with
  | nil =>
    simp only [rowSpawnIdx, true_iff]
    intro j
    simp [List.getD_nil]
  | cons t rest ih =>
    simp only [rowSpawnIdx]
    split_ifs with h
    · subst h
      simp only [false_iff, not_forall]
      exact ⟨0, by simp [List.getD_cons_zero]⟩
    · rw [Option.map_eq_none', ih]
      constructor
      · intro hall j
        cases j with
        | zero => simpa [List.getD_cons_zero] using h
        | succ j => simpa [List.getD_cons_succ] using hall j
      · intro hall j
        simpa [List.getD_cons_succ] using hall (j + 1)

theorem rowSpawnIdx_spec (row : List TilePart) (c : Nat) (h : rowSpawnIdx row = some c) :
    row.getD c .empty = .spawnPoint := by
  induction row generalizing c with
  | nil => simp [rowSpawnIdx] at h
  | cons t rest ih =>
    simp only [rowSpawnIdx] at h
    split_ifs at h with ht
    · obtain rfl : 0 = c := Option.some.inj h
      rw [List.getD_cons_zero]
      exact ht
    · cases hr : rowSpawnIdx rest with
      | none => rw [hr] at h; simp at h
      | some c2 =>
        rw [hr] at h
        obtain rfl : c2 + 1 = c := Option.some.inj h
        rw [List.getD_cons_succ]
        exact ih c2 hr

theorem rowSpawnIdx_some_of (row : List TilePart) (c : Nat)
    (h1 : row.getD c .empty = .spawnPoint)
    (h2 : ∀ j < c, row.getD j .empty ≠ .spawnPoint) :
    rowSpawnIdx row = some c := by
  induction row generalizing c with
  | nil => simp [List.getD_nil] at h1
  | cons t rest ih =>
    cases c with
    | zero =>
      rw [List.getD_cons_zero] at h1
      simp [rowSpawnIdx, h1]
    | succ c =>
      have ht : t ≠ .spawnPoint := by
        simpa [List.getD_cons_zero] using h2 0 (Nat.succ_pos c)
      simp only [rowSpawnIdx, if_neg ht]
      rw [ih c (by simpa [List.getD_cons_succ] using h1)
        (fun j hj => by simpa [List.getD_cons_succ] using h2 (j + 1) (Nat.succ_lt_succ hj))]
      rfl

theorem spawnCellAux_none_iff (ts : List (List TilePart)) (r0 : Nat) :
    spawnCellAux ts r0 = none ↔
      ∀ i c, (ts.getD i []).getD c .empty ≠ .spawnPoint := by
  induction ts generalizing r0 with
  | nil =>
    simp only [spawnCellAux, true_iff]
    intro i c
    simp [List.getD_nil]
  | cons row rest ih =>
    simp only [spawnCellAux]
    cases hrow : rowSpawnIdx row with
    | some c =>
      refine iff_of_false (by simp) ?_
      intro hall
      exact hall 0 c (by rw [List.getD_cons_zero]; exact rowSpawnIdx_spec row c hrow)
    | none =>
      rw [ih (r0 + 1)]
      constructor
      · intro hall i c
        cases i with
        | zero =>
          rw [List.getD_cons_zero]
          exact (rowSpawnIdx_none_iff row).mp hrow c
        | succ i => simpa [List.getD_cons_succ] using hall i c
      · intro hall i c
        simpa [List.getD_cons_succ] using hall (i + 1) c

theorem spawnCellAux_some_of (ts : List (List TilePart)) (r0 r c : Nat)
    (h1 : (ts.getD r []).getD c .empty = .spawnPoint)
    (h2 : ∀ i < r, ∀ j, (ts.getD i []).getD j .empty ≠ .spawnPoint)
    (h3 : ∀ j < c, (ts.getD r []).getD j .empty ≠ .spawnPoint) :
    spawnCellAux ts r0 = some (r0 + r, c) := by
  induction ts generalizing r0 r with
  | nil => simp [List.getD_nil] at h1
  | cons row rest ih =>
    cases r with
    | zero =>
      rw [List.getD_cons_zero] at h1 h3
      simp [spawnCellAux, rowSpawnIdx_some_of row c h1 h3]
    | succ r =>
      have hrow : rowSpawnIdx row = none := by
        rw [rowSpawnIdx_none_iff]
        intro j
        simpa [List.getD_cons_zero] using h2 0 (Nat.succ_pos r) j
      simp only [spawnCellAux, hrow]
      rw [List.getD_cons_succ] at h1 h3
      rw [ih (r0 + 1) r h1
        (fun i hi j => by simpa [List.getD_cons_succ] using h2 (i + 1) (Nat.succ_lt_succ hi) j)
        h3]
      have harith : r0 + 1 + r = r0 + (r + 1) := by omega
      rw [harith]

end TrackGrid

/-- C10: whenever at least one `SpawnPoint` tile exists, `find_spawn` returns
`Some` with position the world-space centre of the first `SpawnPoint` cell in
row-major scan order and heading exactly `0.0` radians; grids with several
`SpawnPoint` tiles are not rejected (the scan silently picks the row-major
first), and `find_spawn` returns `None` exactly when no `SpawnPoint` exists. -/
theorem c10_find_spawn_row_major (g : TrackGrid ℚ) :
    (g.find_spawn = none ↔ ∀ r c, g.tile_at r c ≠ .spawnPoint) ∧
      (∀ r c, g.tile_at r c = .spawnPoint →
        (∀ r2 c2, r2 < r ∨ (r2 = r ∧ c2 < c) → g.tile_at r2 c2 ≠ .spawnPoint) →
        g.find_spawn = some (g.cell_center r c, 0)) := by
  constructor
  · rw [TrackGrid.find_spawn, Option.map_eq_none', TrackGrid.find_spawn_cell,
      TrackGrid.spawnCellAux_none_iff]
    exact Iff.rfl
  · intro r c h1 h2
    have hcell : g.find_spawn_cell = some (r, c) := by
      rw [TrackGrid.find_spawn_cell]
      have h := TrackGrid.spawnCellAux_some_of g.tiles 0 r c h1
        (fun i hi j => h2 i j (Or.inl hi))
        (fun j hj => h2 r j (Or.inr ⟨rfl, hj⟩))
      simpa using h
    rw [TrackGrid.find_spawn, hcell]
    rfl

theorem c10_find_spawn_row_major_witness :
    gridSp.tile_at 0 1 = .spawnPoint ∧
      gridSp.find_spawn = some (gridSp.cell_center 0 1, 0) :=
  ⟨by decide, (c10_find_spawn_row_major gridSp).2 0 1 (by decide)
    (fun r2 c2 h => by
      rcases h with h | ⟨rfl, hc⟩
      · exact absurd h (Nat.not_lt_zero r2)
      · interval_cases c2
        decide)⟩

/-! ## C5 -/

theorem world_to_cell_of_rect (g : TrackGrid ℚ) (r c : Nat) (p : Vec2 ℚ)
    (hts : 0 < g.tile_size) (hr : r < g.rows) (hc : c < g.cols)
    (hin : inCellRect g r c p) :
    g.world_to_cell p = some (r, c) := by
  obtain ⟨hx1, hx2, hy1, hy2⟩ := hin
  have hcnn : (0 : ℚ) ≤ (c : ℚ) * g.tile_size := by positivity
  have hrnn : (0 : ℚ) ≤ (r : ℚ) * g.tile_size := by positivity
  have hrelx : (0 : ℚ) ≤ p.x - g.origin.x := by linarith
  have hrely : (0 : ℚ) ≤ g.origin.y - p.y := by linarith
  have hcol : ⌊(p.x - g.origin.x) / g.tile_size⌋₊ = c := by
    rw [Nat.floor_eq_iff (by positivity)]
    constructor
    · rw [le_div_iff hts]; linarith
    · rw [div_lt_iff hts]; push_cast; linarith
  have hrow : ⌊(g.origin.y - p.y) / g.tile_size⌋₊ = r := by
    rw [Nat.floor_eq_iff (by positivity)]
    constructor
    · rw [le_div_iff hts]; linarith
    · rw [div_lt_iff hts]; push_cast; linarith
  simp only [TrackGrid.world_to_cell]
  rw [if_neg (by push_neg; exact ⟨hrelx, hrely⟩), hcol, hrow,
    if_neg (by push_neg; exact ⟨hr, hc⟩)]

theorem guard_chain_false {g1 g2 g3 g4 : Bool}
    (h : g1 = true ∨ g2 = true ∨ g3 = true ∨ g4 = true) :
    (if g1 then false
     else if g2 then false
     else if g3 then false
     else if g4 then false
     else true) = false := by
  cases g1 <;> cases g2 <;> cases g3 <;> cases g4 <;> simp_all

/-- A corner tile whose `d`-edge is closed has its arc centre on the opposite
edge of the cell in the `d`-axis. -/
theorem corner_arc_axis (t : TilePart) (d : GridDir) (hcorner : t.is_corner = true)
    (hcl : edgeClosed t d = true) (center : Vec2 ℚ) (half : ℚ) :
    (match d with
     | .north => (corner_arc_params t center half).1.y = center.y - half
     | .south => (corner_arc_params t center half).1.y = center.y + half
     | .east => (corner_arc_params t center half).1.x = center.x - half
     | .west => (corner_arc_params t center half).1.x = center.x + half) := by
  cases t <;> cases d <;>
    first
      | exact absurd hcorner (by decide)
      | exact absurd hcl (by decide)
      | rfl

theorem is_road_at_false_near_closed_edge (g : TrackGrid ℚ) (r c : Nat) (d : GridDir)
    (p : Vec2 ℚ) (hts : 0 < g.tile_size) (hr : r < g.rows) (hc : c < g.cols)
    (hin : inCellRect g r c p)
    (hcl : edgeClosed (g.tile_at r c) d = true)
    (hnear : edgeGap g r c d p < wallThickness * (1 / 2)) :
    g.is_road_at p = false := by
  have hw := world_to_cell_of_rect g r c p hts hr hc hin
  rw [TrackGrid.is_road_at, hw]
  by_cases hroad : (g.tile_at r c).is_road
  case neg =>
    simp [hroad]
  case pos =>
    simp only [hroad, Bool.not_true, Bool.false_eq_true, if_false]
    by_cases hcorner : (g.tile_at r c).is_corner
    · rw [if_pos hcorner, decide_eq_false_iff_not]
      rintro ⟨hD, hle⟩
      have hax := corner_arc_axis (g.tile_at r c) d hcorner hcl (g.cell_center r c)
        (g.tile_size * (1 / 2))
      unfold Vec2.dist2 at hle
      cases d with
      | north =>
        have hay : (corner_arc_params (g.tile_at r c) (g.cell_center r c)
            (g.tile_size * (1 / 2))).1.y = (g.cell_center r c).y - g.tile_size * (1 / 2) := hax
        have hcy : (g.cell_center r c).y =
            g.origin.y - (r : ℚ) * g.tile_size - g.tile_size * (1 / 2) := rfl
        simp only [edgeGap] at hnear
        have hz : g.tile_size - wallThickness * (1 / 2) <
            p.y - (corner_arc_params (g.tile_at r c) (g.cell_center r c)
              (g.tile_size * (1 / 2))).1.y := by
          rw [hay, hcy]; linarith
        have hsq := mul_self_lt_mul_self hD hz
        have hx2 := mul_self_nonneg (p.x - (corner_arc_params (g.tile_at r c)
          (g.cell_center r c) (g.tile_size * (1 / 2))).1.x)
        linarith
      | south =>
        have hay : (corner_arc_params (g.tile_at r c) (g.cell_center r c)
            (g.tile_size * (1 / 2))).1.y = (g.cell_center r c).y + g.tile_size * (1 / 2) := hax
        have hcy : (g.cell_center r c).y =
            g.origin.y - (r : ℚ) * g.tile_size - g.tile_size * (1 / 2) := rfl
        simp only [edgeGap] at hnear
        have hz : g.tile_size - wallThickness * (1 / 2) <
            (corner_arc_params (g.tile_at r c) (g.cell_center r c)
              (g.tile_size * (1 / 2))).1.y - p.y := by
          rw [hay, hcy]; push_cast; linarith
        have hsq := mul_self_lt_mul_self hD hz
        have hx2 := mul_self_nonneg (p.x - (corner_arc_params (g.tile_at r c)
          (g.cell_center r c) (g.tile_size * (1 / 2))).1.x)
        nlinarith [hle, hsq, hx2]
      | east =>
        have hax2 : (corner_arc_params (g.tile_at r c) (g.cell_center r c)
            (g.tile_size * (1 / 2))).1.x = (g.cell_center r c).x - g.tile_size * (1 / 2) := hax
        have hcx : (g.cell_center r c).x =
            g.origin.x + (c : ℚ) * g.tile_size + g.tile_size * (1 / 2) := rfl
        simp only [edgeGap] at hnear
        have hz : g.tile_size - wallThickness * (1 / 2) <
            p.x - (corner_arc_params (g.tile_at r c) (g.cell_center r c)
              (g.tile_size * (1 / 2))).1.x := by
          rw [hax2, hcx]; push_cast; linarith
        have hsq := mul_self_lt_mul_self hD hz
        have hy2 := mul_self_nonneg (p.y - (corner_arc_params (g.tile_at r c)
          (g.cell_center r c) (g.tile_size * (1 / 2))).1.y)
        linarith
      | west =>
        have hax2 : (corner_arc_params (g.tile_at r c) (g.cell_center r c)
            (g.tile_size * (1 / 2))).1.x = (g.cell_center r c).x + g.tile_size * (1 / 2) := hax
        have hcx : (g.cell_center r c).x =
            g.origin.x + (c : ℚ) * g.tile_size + g.tile_size * (1 / 2) := rfl
        simp only [edgeGap] at hnear
        have hz : g.tile_size - wallThickness * (1 / 2) <
            (corner_arc_params (g.tile_at r c) (g.cell_center r c)
              (g.tile_size * (1 / 2))).1.x - p.x := by
          rw [hax2, hcx]; linarith
        have hsq := mul_self_lt_mul_self hD hz
        have hy2 := mul_self_nonneg (p.y - (corner_arc_params (g.tile_at r c)
          (g.cell_center r c) (g.tile_size * (1 / 2))).1.y)
        nlinarith [hle, hsq, hy2]
    · rw [if_neg hcorner]
      apply guard_chain_false
      have hcy : (g.cell_center r c).y =
          g.origin.y - (r : ℚ) * g.tile_size - g.tile_size * (1 / 2) := rfl
      have hcx : (g.cell_center r c).x =
          g.origin.x + (c : ℚ) * g.tile_size + g.tile_size * (1 / 2) := rfl
      cases d with
      | north =>
        refine Or.inl ?_
        rw [Bool.and_eq_true]
        refine ⟨hcl, decide_eq_true ?_⟩
        simp only [edgeGap] at hnear
        rw [hcy]
        linarith
      | south =>
        refine Or.inr (Or.inl ?_)
        rw [Bool.and_eq_true]
        refine ⟨hcl, decide_eq_true ?_⟩
        simp only [edgeGap] at hnear
        rw [hcy]
        push_cast at hnear
        linarith
      | east =>
        refine Or.inr (Or.inr (Or.inl ?_))
        rw [Bool.and_eq_true]
        refine ⟨hcl, decide_eq_true ?_⟩
        simp only [edgeGap] at hnear
        rw [hcx]
        push_cast at hnear
        linarith
      | west =>
        refine Or.inr (Or.inr (Or.inr ?_))
        rw [Bool.and_eq_true]
        refine ⟨hcl, decide_eq_true ?_⟩
        simp only [edgeGap] at hnear
        rw [hcx]
        linarith

theorem step_cell_inv_north (r c r2 c2 : Nat)
    (h : step_cell (r, c) .north = some (r2, c2)) : r = r2 + 1 ∧ c = c2 := by
  simp only [step_cell, GridDir.delta] at h
  split_ifs at h with hneg
  all_goals first
    | exact Option.noConfusion h
    | (simp only [Option.some.injEq, Prod.mk.injEq] at h; omega)

theorem step_cell_inv_south (r c r2 c2 : Nat)
    (h : step_cell (r, c) .south = some (r2, c2)) : r2 = r + 1 ∧ c = c2 := by
  simp only [step_cell, GridDir.delta] at h
  split_ifs at h with hneg
  all_goals first
    | exact Option.noConfusion h
    | (simp only [Option.some.injEq, Prod.mk.injEq] at h; omega)

theorem step_cell_inv_east (r c r2 c2 : Nat)
    (h : step_cell (r, c) .east = some (r2, c2)) : r = r2 ∧ c2 = c + 1 := by
  simp only [step_cell, GridDir.delta] at h
  split_ifs at h with hneg
  all_goals first
    | exact Option.noConfusion h
    | (simp only [Option.some.injEq, Prod.mk.injEq] at h; omega)

theorem step_cell_inv_west (r c r2 c2 : Nat)
    (h : step_cell (r, c) .west = some (r2, c2)) : r = r2 ∧ c = c2 + 1 := by
  simp only [step_cell, GridDir.delta] at h
  split_ifs at h with hneg
  all_goals first
    | exact Option.noConfusion h
    | (simp only [Option.some.injEq, Prod.mk.injEq] at h; omega)

/-- C5: for every pair of adjacent road cells that share a closed edge
(including corner tiles), every world point inside either cell lying strictly
within half the wall thickness of the shared boundary satisfies
`is_road_at(point) = false`.  Adjacency is `step_cell` in direction `d`; the
shared boundary is the `d`-edge of the first cell, and `|edgeGap| < 2.5`
states that `p` is strictly within half the wall thickness (5/2) of it. -/
theorem c5_shared_wall_deadzone (g : TrackGrid ℚ) (r1 c1 r2 c2 : Nat) (d : GridDir)
    (p : Vec2 ℚ) (hts : 0 < g.tile_size)
    (hstep : step_cell (r1, c1) d = some (r2, c2))
    (hr1 : r1 < g.rows) (hc1 : c1 < g.cols) (hr2 : r2 < g.rows) (hc2 : c2 < g.cols)
    (hroad1 : (g.tile_at r1 c1).is_road = true) (hroad2 : (g.tile_at r2 c2).is_road = true)
    (hcl1 : edgeClosed (g.tile_at r1 c1) d = true)
    (hcl2 : edgeClosed (g.tile_at r2 c2) d.opposite = true)
    (hin : inCellRect g r1 c1 p ∨ inCellRect g r2 c2 p)
    (hnear : |edgeGap g r1 c1 d p| < wallThickness * (1 / 2)) :
    g.is_road_at p = false := by
  obtain ⟨hlo, hhi⟩ := abs_lt.mp hnear
  rcases hin with hin | hin
  · exact is_road_at_false_near_closed_edge g r1 c1 d p hts hr1 hc1 hin hcl1 hhi
  · apply is_road_at_false_near_closed_edge g r2 c2 d.opposite p hts hr2 hc2 hin hcl2
    cases d with
    | north =>
      obtain ⟨he1, he2⟩ := step_cell_inv_north r1 c1 r2 c2 hstep
      subst he1; subst he2
      simp only [GridDir.opposite, edgeGap] at hlo ⊢
      push_cast at hlo ⊢
      linarith
    | south =>
      obtain ⟨he1, he2⟩ := step_cell_inv_south r1 c1 r2 c2 hstep
      subst he1; subst he2
      simp only [GridDir.opposite, edgeGap] at hlo ⊢
      push_cast at hlo ⊢
      linarith
    | east =>
      obtain ⟨he1, he2⟩ := step_cell_inv_east r1 c1 r2 c2 hstep
      subst he1; subst he2
      simp only [GridDir.opposite, edgeGap] at hlo ⊢
      push_cast at hlo ⊢
      linarith
    | west =>
      obtain ⟨he1, he2⟩ := step_cell_inv_west r1 c1 r2 c2 hstep
      subst he1; subst he2
      simp only [GridDir.opposite, edgeGap] at hlo ⊢
      push_cast at hlo ⊢
      linarith

theorem c5_shared_wall_deadzone_witness :
    edgeClosed (gridC5.tile_at 0 0) .east = true ∧
      edgeClosed (gridC5.tile_at 0 1) GridDir.east.opposite = true ∧
      gridC5.is_road_at ⟨99, -50⟩ = false :=
  ⟨by decide, by decide,
    c5_shared_wall_deadzone gridC5 0 0 0 1 .east ⟨99, -50⟩
      (by norm_num [gridC5])
      (by decide) (by decide) (by decide) (by decide) (by decide)
      (by decide) (by decide) (by decide) (by decide)
      (Or.inl (by norm_num [inCellRect, gridC5]))
      (by rw [abs_lt]; constructor <;> norm_num [edgeGap, wallThickness, gridC5])⟩

/-! ## C4 -/

theorem selectBest_invariant (pts : List (Vec2 ℝ)) (world : Vec2 ℝ) (n : Nat) :
    ((List.range n).foldl (selectStep pts world) none = none ∧
        ∀ j < n, ¬ nondeg pts j) ∨
      (∃ i, i < n ∧ nondeg pts i ∧
        (List.range n).foldl (selectStep pts world) none = some (mkSel pts world i) ∧
        (∀ j < n, nondeg pts j → candD2 pts world i ≤ candD2 pts world j) ∧
        (∀ j < i, nondeg pts j → candD2 pts world i < candD2 pts world j)) := by
  induction n with
  | zero => exact Or.inl ⟨rfl, by omega⟩
  | succ n ih =>
    rw [List.range_succ, List.foldl_append, List.foldl_cons, List.foldl_nil]
    rcases ih with ⟨heq, hnone⟩ | ⟨i, hi, hnd, heq, hmin, hfirst⟩
    · rw [heq]
      by_cases hdeg : segLen2 pts n ≤ degenEps
      · refine Or.inl ⟨by simp [selectStep, hdeg], ?_⟩
        intro j hj
        rcases Nat.lt_succ_iff_lt_or_eq.mp hj with h | rfl
        · exact hnone j h
        · unfold nondeg; linarith
      · refine Or.inr ⟨n, Nat.lt_succ_self n, by unfold nondeg; linarith, ?_, ?_, ?_⟩
        · simp [selectStep, hdeg]
        · intro j hj hjnd
          rcases Nat.lt_succ_iff_lt_or_eq.mp hj with h | rfl
          · exact absurd hjnd (hnone j h)
          · exact le_refl _
        · intro j hj hjnd
          exact absurd hjnd (hnone j hj)
    · rw [heq]
      by_cases hdeg : segLen2 pts n ≤ degenEps
      · refine Or.inr ⟨i, Nat.lt_succ_of_lt hi, hnd, by simp [selectStep, hdeg], ?_, hfirst⟩
        intro j hj hjnd
        rcases Nat.lt_succ_iff_lt_or_eq.mp hj with h | rfl
        · exact hmin j h hjnd
        · have hx := hjnd; unfold nondeg at hx; linarith
      · by_cases hlt : candD2 pts world n < candD2 pts world i
        · refine Or.inr ⟨n, Nat.lt_succ_self n, by unfold nondeg; linarith, ?_, ?_, ?_⟩
          · simp [selectStep, hdeg, mkSel, hlt]
          · intro j hj hjnd
            rcases Nat.lt_succ_iff_lt_or_eq.mp hj with h | rfl
            · exact le_of_lt (lt_of_lt_of_le hlt (hmin j h hjnd))
            · exact le_refl _
          · intro j hj hjnd
            exact lt_of_lt_of_le hlt (hmin j hj hjnd)
        · refine Or.inr ⟨i, Nat.lt_succ_of_lt hi, hnd, ?_, ?_, hfirst⟩
          · simp [selectStep, hdeg, mkSel, hlt]
          · intro j hj hjnd
            rcases Nat.lt_succ_iff_lt_or_eq.mp hj with h | rfl
            · exact hmin j h hjnd
            · exact le_of_not_lt hlt

theorem project_eq_candProj (cl : TrackCenterline) (world : Vec2 ℝ) (i : Nat)
    (h : selectBest cl.points world = some (mkSel cl.points world i)) :
    project cl world = candProj cl world i := by
  rw [project, h]
  rfl

/-- C4: for every centerline with at least two points (and at least one
non-degenerate segment, without which the loop has no candidate to return)
and every query point, `project` returns the candidate of globally minimal
Euclidean distance over the segments whose squared length exceeds the `1e-8`
degeneracy threshold; the winning candidate for segment `i` carries the
closest point at clamped parameter `t` and arc length
`s = cumulative_lengths[i] + t * segment_length`; among equally distant
segments the first in polyline order wins (strictly smaller distance than
every earlier non-degenerate segment). -/
theorem c4_project_global_min (cl : TrackCenterline) (world : Vec2 ℝ)
    (hn : 2 ≤ cl.points.length)
    (hex : ∃ i, i < cl.points.length ∧ nondeg cl.points i) :
    ∃ i, i < cl.points.length ∧ nondeg cl.points i ∧
      project cl world = candProj cl world i ∧
      (∀ j < cl.points.length, nondeg cl.points j →
        Real.sqrt (candD2 cl.points world i) ≤ Real.sqrt (candD2 cl.points world j)) ∧
      (∀ j < i, nondeg cl.points j →
        Real.sqrt (candD2 cl.points world i) < Real.sqrt (candD2 cl.points world j)) := by
  rcases selectBest_invariant cl.points world cl.points.length with ⟨heq, hnone⟩ |
    ⟨i, hi, hnd, heq, hmin, hfirst⟩
  · obtain ⟨i, hi, hind⟩ := hex
    exact absurd hind (hnone i hi)
  · refine ⟨i, hi, hnd, project_eq_candProj cl world i heq, ?_, ?_⟩
    · intro j hj hjnd
      exact Real.sqrt_le_sqrt (hmin j hj hjnd)
    · intro j hj hjnd
      exact Real.sqrt_lt_sqrt (Vec2.dist2_nonneg _ _) (hfirst j hj hjnd)

theorem c4_project_global_min_witness :
    (2 : Nat) ≤ cl4.points.length ∧ (∃ i, i < cl4.points.length ∧ nondeg cl4.points i) ∧
      ∃ i, i < cl4.points.length ∧ nondeg cl4.points i ∧
        project cl4 ⟨1, 1⟩ = candProj cl4 ⟨1, 1⟩ i ∧
        (∀ j < cl4.points.length, nondeg cl4.points j →
          Real.sqrt (candD2 cl4.points ⟨1, 1⟩ i) ≤ Real.sqrt (candD2 cl4.points ⟨1, 1⟩ j)) ∧
        (∀ j < i, nondeg cl4.points j →
          Real.sqrt (candD2 cl4.points ⟨1, 1⟩ i) < Real.sqrt (candD2 cl4.points ⟨1, 1⟩ j)) :=
  ⟨by norm_num [cl4],
    ⟨0, by norm_num [cl4], by
      unfold nondeg segLen2 segV segB segA ptAt degenEps
      norm_num [cl4, Vec2.length_squared, List.getD_cons_zero, List.getD_cons_succ]⟩,
    c4_project_global_min cl4 ⟨1, 1⟩ (by norm_num [cl4])
      ⟨0, by norm_num [cl4], by
        unfold nondeg segLen2 segV segB segA ptAt degenEps
        norm_num [cl4, Vec2.length_squared, List.getD_cons_zero, List.getD_cons_succ]⟩⟩

/-! ## C8 -/

theorem cand_on_segment (pts : List (Vec2 ℝ)) (world : Vec2 ℝ) (i : Nat) (t : ℝ)
    (hnd : nondeg pts i) (ht0 : 0 ≤ t) (ht1 : t ≤ 1)
    (hw : world = segA pts i + t • segV pts i) :
    candT pts world i = t ∧ candP pts world i = world ∧ candD2 pts world i = 0 := by
  have hpos : 0 < segLen2 pts i := by
    have hx := hnd
    unfold nondeg degenEps at hx
    linarith
  have hlen : segLen2 pts i ≠ 0 := ne_of_gt hpos
  have hT : candT pts world i = t := by
    unfold candT
    rw [hw]
    have hdot : Vec2.dot (segA pts i + t • segV pts i - segA pts i) (segV pts i) =
        t * segLen2 pts i := by
      unfold Vec2.dot segLen2 Vec2.length_squared
      simp only [Vec2.sub_def, Vec2.add_def, Vec2.smul_def]
      ring
    rw [hdot, mul_div_assoc, div_self hlen, mul_one]
    exact clampK_eq_self ht0 ht1
  have hP : candP pts world i = world := by
    unfold candP
    rw [hT, hw]
  refine ⟨hT, hP, ?_⟩
  unfold candD2
  rw [hP]
  unfold Vec2.dist2
  ring

theorem getD_range_map (f : Nat → ℝ) (n j : Nat) (hj : j < n) :
    ((List.range n).map f).getD j 0 = f j := by
  rw [List.getD_eq_getElem?_getD]
  simp [List.getElem?_map, List.getElem?_range hj]

theorem segDist_eq (pts : List (Vec2 ℝ)) (i : Nat) :
    segDist pts i = Real.sqrt (segLen2 pts i) := by
  unfold segDist segLen2 segV segB segA Vec2.dist2 Vec2.length_squared
  congr 1
  simp only [Vec2.sub_def]
  ring

theorem cumLen_nonneg (pts : List (Vec2 ℝ)) (j : Nat) : 0 ≤ cumLen pts j :=
  Finset.sum_nonneg fun k _ => Real.sqrt_nonneg _

theorem cumLen_succ (pts : List (Vec2 ℝ)) (j : Nat) :
    cumLen pts (j + 1) = cumLen pts j + segDist pts j :=
  Finset.sum_range_succ _ _

theorem cumLen_mono (pts : List (Vec2 ℝ)) {a b : Nat} (h : a ≤ b) :
    cumLen pts a ≤ cumLen pts b :=
  Finset.sum_le_sum_of_subset_of_nonneg (Finset.range_subset.mpr h)
    (fun k _ _ => Real.sqrt_nonneg _)

/-- C8: for every point lying exactly on a non-degenerate segment of the
centerline (with the stored cumulative-length table and total length being the
ones `compute_lengths` derives from the points, as `build_closed_loop`
guarantees), `project` returns that point as `closest_point` with distance
exactly `0`, and its `s`/`fraction` are consistent with a containing segment:
`s = cumulative length of the (first) segment containing the point plus the
on-segment offset t * segment length`, and `fraction = s / total_length`.
When the point lies on several segments (it can only be a shared vertex for
the non-self-intersecting polylines the compiler emits), the winning segment
is the first in polyline order, whose `s` agrees with that of the given segment at
that shared point. -/
theorem c8_on_segment_projection (cl : TrackCenterline) (world : Vec2 ℝ) (i : Nat) (t : ℝ)
    (hcum : cl.cumulative_lengths = (compute_lengths cl.points).1)
    (htot : cl.total_length = (compute_lengths cl.points).2)
    (hn : 2 ≤ cl.points.length) (hi : i < cl.points.length)
    (hnd : nondeg cl.points i) (ht0 : 0 ≤ t) (ht1 : t ≤ 1)
    (hw : world = segA cl.points i + t • segV cl.points i) :
    (project cl world).distance = 0 ∧ (project cl world).closest_point = world ∧
      ∃ j, j < cl.points.length ∧ ∃ u : ℝ, nondeg cl.points j ∧ 0 ≤ u ∧ u ≤ 1 ∧
        world = segA cl.points j + u • segV cl.points j ∧
        (project cl world).s = cumLen cl.points j + Real.sqrt (segLen2 cl.points j) * u ∧
        (project cl world).fraction = (project cl world).s / cl.total_length := by
  obtain ⟨hT, hP, hD⟩ := cand_on_segment cl.points world i t hnd ht0 ht1 hw
  rcases selectBest_invariant cl.points world cl.points.length with ⟨heq, hnone⟩ |
    ⟨j, hj, hjnd, heq, hmin, hfirst⟩
  · exact absurd hnd (hnone i hi)
  · have hproj := project_eq_candProj cl world j heq
    have hj0 : candD2 cl.points world j = 0 := by
      have hle := hmin i hi hnd
      rw [hD] at hle
      exact le_antisymm hle (Vec2.dist2_nonneg _ _)
    have hPj : candP cl.points world j = world :=
      ((Vec2.dist2_eq_zero_iff world (candP cl.points world j)).mp hj0).symm
    have hu0 : (0 : ℝ) ≤ candT cl.points world j := le_clampK _ (by norm_num)
    have hu1 : candT cl.points world j ≤ 1 := clampK_le _ (by norm_num)
    have hwj : world = segA cl.points j + candT cl.points world j • segV cl.points j :=
      hPj.symm
    have hjpos : 0 < segLen2 cl.points j := by
      have hx := hjnd
      unfold nondeg degenEps at hx
      linarith
    have hcumj : cl.cumulative_lengths.getD j 0 = cumLen cl.points j := by
      rw [hcum]
      unfold compute_lengths
      exact getD_range_map (cumLen cl.points) cl.points.length j hj
    have hS : (project cl world).s =
        cumLen cl.points j + Real.sqrt (segLen2 cl.points j) * candT cl.points world j := by
      rw [hproj]
      simp only [candProj]
      rw [hcumj]
    have htotv : cl.total_length = cumLen cl.points cl.points.length := by
      rw [htot]
      rfl
    have htotpos : 0 < cl.total_length := by
      rw [htotv]
      have h1 : cumLen cl.points j + segDist cl.points j ≤
          cumLen cl.points cl.points.length := by
        rw [← cumLen_succ]
        exact cumLen_mono cl.points hj
      have h2 : 0 < segDist cl.points j := by
        rw [segDist_eq]
        exact Real.sqrt_pos.mpr hjpos
      have h3 := cumLen_nonneg cl.points j
      linarith
    have hs0 : 0 ≤ (project cl world).s := by
      rw [hS]
      have := mul_nonneg (Real.sqrt_nonneg (segLen2 cl.points j)) hu0
      have := cumLen_nonneg cl.points j
      linarith
    have hs1 : (project cl world).s ≤ cl.total_length := by
      rw [hS, htotv]
      have h1 : Real.sqrt (segLen2 cl.points j) * candT cl.points world j ≤
          Real.sqrt (segLen2 cl.points j) * 1 :=
        mul_le_mul_of_nonneg_left hu1 (Real.sqrt_nonneg _)
      have h2 : cumLen cl.points j + segDist cl.points j ≤
          cumLen cl.points cl.points.length := by
        rw [← cumLen_succ]
        exact cumLen_mono cl.points hj
      rw [segDist_eq] at h2
      linarith
    have hfrac : (project cl world).fraction = (project cl world).s / cl.total_length := by
      rw [hproj]
      simp only [candProj]
      rw [hcumj]
      have hs0x := hs0
      have hs1x := hs1
      rw [hS] at hs0x hs1x
      exact clampK_eq_self (div_nonneg hs0x htotpos.le) ((div_le_one htotpos).mpr hs1x)
    refine ⟨?_, ?_, j, hj, candT cl.points world j, hjnd, hu0, hu1, hwj, hS, hfrac⟩
    · rw [hproj]
      simp only [candProj]
      rw [hj0, Real.sqrt_zero]
    · rw [hproj]
      simp only [candProj]
      exact hPj

theorem c8_on_segment_projection_witness :
    nondeg cl4.points 0 ∧
      (⟨2, 0⟩ : Vec2 ℝ) = segA cl4.points 0 + (1 / 2 : ℝ) • segV cl4.points 0 ∧
      ((project cl4 ⟨2, 0⟩).distance = 0 ∧ (project cl4 ⟨2, 0⟩).closest_point = ⟨2, 0⟩ ∧
        ∃ j, j < cl4.points.length ∧ ∃ u : ℝ, nondeg cl4.points j ∧ 0 ≤ u ∧ u ≤ 1 ∧
          (⟨2, 0⟩ : Vec2 ℝ) = segA cl4.points j + u • segV cl4.points j ∧
          (project cl4 ⟨2, 0⟩).s = cumLen cl4.points j + Real.sqrt (segLen2 cl4.points j) * u ∧
          (project cl4 ⟨2, 0⟩).fraction = (project cl4 ⟨2, 0⟩).s / cl4.total_length) :=
  ⟨by
      unfold nondeg segLen2 segV segB segA ptAt degenEps
      norm_num [cl4, Vec2.length_squared, List.getD_cons_zero, List.getD_cons_succ],
    by
      unfold segV segB segA ptAt
      norm_num [cl4, List.getD_cons_zero, List.getD_cons_succ, Vec2.add_def, Vec2.smul_def,
        Vec2.sub_def, Vec2.mk.injEq],
    c8_on_segment_projection cl4 ⟨2, 0⟩ 0 (1 / 2) rfl rfl (by norm_num [cl4]) (by norm_num [cl4])
      (by
        unfold nondeg segLen2 segV segB segA ptAt degenEps
        norm_num [cl4, Vec2.length_squared, List.getD_cons_zero, List.getD_cons_succ])
      (by norm_num) (by norm_num)
      (by
        unfold segV segB segA ptAt
        norm_num [cl4, List.getD_cons_zero, List.getD_cons_succ, Vec2.add_def, Vec2.smul_def,
          Vec2.sub_def, Vec2.mk.injEq])⟩
